import Mathlib

/-!
Verification of the `debounced` crate (src/future.rs, src/stream.rs)

Shallow embedding of the two components:

* `Delayed` (src/future.rs): a future holding `sleep : Pin<Box<Delay>>` and
  `value : Option<T>`.  The timer itself is an external collaborator, so a
  poll of the embedded `Delayed` takes a boolean `timerElapsed` saying what
  `self.sleep.poll_unpin(cx)` returned (`true` = `Poll::Ready(())`,
  `false` = `Poll::Pending`).  The `duration` field records the duration the
  `Delay` was constructed with.  A `None` result of `Delayed.poll` models the
  `unwrap` panic in `Delayed::poll`.

* `Debounced` (src/stream.rs): holds `delay : Duration` and
  `pending : Option<Delayed<T>>` (the upstream stream is an external
  collaborator).  A single call of `Debounced::poll_next` interacts with the
  upstream stream through a sequence of `poll_next_unpin` answers; since the
  drain loop keeps looping exactly while the answer is `Poll::Ready(Some _)`,
  any terminating interaction is a finite list of items (`burst`) followed by
  one terminal answer (`UpFinal.done` = `Poll::Ready(None)`,
  `UpFinal.pend` = `Poll::Pending`).  A non-terminating interaction (upstream
  always immediately ready) is modelled separately with an infinite answer
  function `Nat → UpPoll T` and a fuel-indexed drain (`drainFuel`).

Durations are modelled as `Nat`.
-/

namespace DebouncedSpec

/-- The `std::task::Poll` type. -/
inductive Poll (α : Type) where
  | pending
  | ready (v : α)
  deriving DecidableEq, Repr

/-- src/future.rs: `Delayed<T> { sleep: Pin<Box<Delay>>, value: Option<T> }`.
The timer state is external; `duration` records the duration passed to
`Delay::new`. -/
structure Delayed (T : Type) where
  duration : Nat
  value : Option T
  deriving DecidableEq, Repr

/-- src/future.rs: `Delayed::new(value, duration)`. -/
def Delayed.new {T : Type} (value : T) (duration : Nat) : Delayed T :=
  { duration := duration, value := some value }

/-- src/future.rs: `Delayed::poll`.  `timerElapsed` is the answer of
`self.sleep.poll_unpin(cx)`.  `none` models the panic of
`self.value.take().unwrap()` when the value was already taken. -/
def Delayed.poll {T : Type} (self : Delayed T) (timerElapsed : Bool) :
    Option (Poll T × Delayed T) :=
  if timerElapsed then
    match self.value with
    | some v => some (.ready v, { self with value := none })
    | none => none
  else
    some (.pending, self)

/-- src/future.rs: `delayed(value, duration)`. -/
def delayed {T : Type} (value : T) (duration : Nat) : Delayed T :=
  Delayed.new value duration

/-- src/stream.rs: `Debounced<S> { stream: S, delay: Duration, pending: Option<Delayed<S::Item>> }`.
The upstream stream is an external collaborator and is passed to `poll_next`
as an explicit answer trace. -/
structure Debounced (T : Type) where
  delay : Nat
  pending : Option (Delayed T)
  deriving DecidableEq, Repr

/-- src/stream.rs: `Debounced::new(stream, delay)` (the `stream` field is
external in this embedding). -/
def Debounced.new {T : Type} (delay : Nat) : Debounced T :=
  { delay := delay, pending := none }

/-- src/stream.rs: `debounced(stream, delay)`. -/
def debounced {T : Type} (delay : Nat) : Debounced T :=
  Debounced.new delay

/-- The terminal answer of the upstream stream that ends the drain loop in one
`poll_next` call: `done` = `Poll::Ready(None)`, `pend` = `Poll::Pending`. -/
inductive UpFinal where
  | done
  | pend
  deriving DecidableEq, Repr

/-- Outcome of the `while let` drain loop of `Debounced::poll_next`:
either the loop executed `return Poll::Ready(None)`, or it fell through
(on `break` or on upstream `Poll::Pending`) with the updated state. -/
inductive DrainResult (T : Type) where
  | returnEnd (st : Debounced T)
  | fallThrough (st : Debounced T)
  deriving DecidableEq, Repr

/-- The drain loop of `Debounced::poll_next` (src/stream.rs lines 59-69),
run on the finite answer trace `burst ++ [final]`:
each `Poll::Ready(Some next)` sets `pending = Some(delayed(next, delay))` and
loops; `Poll::Ready(None)` returns end if no value is pending, else breaks;
`Poll::Pending` exits the loop. -/
def Debounced.drainLoop {T : Type} (self : Debounced T) :
    List T → UpFinal → DrainResult T
  | [], .pend => .fallThrough self
  | [], .done =>
      if self.pending.isNone then .returnEnd self else .fallThrough self
  | next :: rest, final =>
      Debounced.drainLoop { self with pending := some (delayed next self.delay) } rest final

/-- The resolve phase of `Debounced::poll_next` (src/stream.rs lines 71-80):
poll the pending `Delayed` if there is one.  `timerElapsed` is the answer of
the timer of the pending value; `none` propagates the (unreachable in correct
usage) panic of `Delayed::poll`. -/
def Debounced.resolvePending {T : Type} (self : Debounced T) (timerElapsed : Bool) :
    Option (Poll (Option T) × Debounced T) :=
  match self.pending with
  | some p =>
      match p.poll timerElapsed with
      | none => none
      | some (.ready v, _) => some (.ready (some v), { self with pending := none })
      | some (.pending, p') => some (.pending, { self with pending := some p' })
  | none => some (.pending, self)

/-- src/stream.rs: one full call of `Debounced::poll_next`, given the answer
trace of the upstream stream for this call (`burst`, `final`) and the answer
`timerElapsed` of the pending timer (used only if the resolve phase polls a
pending value). -/
def Debounced.poll_next {T : Type} (self : Debounced T) (burst : List T)
    (final : UpFinal) (timerElapsed : Bool) :
    Option (Poll (Option T) × Debounced T) :=
  match self.drainLoop burst final with
  | .returnEnd st => some (.ready none, st)
  | .fallThrough st => st.resolvePending timerElapsed

/-- The environment inputs of one `poll_next` call. -/
structure CallInput (T : Type) where
  burst : List T
  final : UpFinal
  timerElapsed : Bool
  deriving DecidableEq, Repr

/-- A consumer session: repeated `poll_next` calls, each with its own
environment inputs; collects the outputs.  `none` propagates a panic. -/
def Debounced.run {T : Type} (self : Debounced T) :
    List (CallInput T) → Option (List (Poll (Option T)) × Debounced T)
  | [] => some ([], self)
  | c :: cs =>
      match self.poll_next c.burst c.final c.timerElapsed with
      | none => none
      | some (out, st) =>
          match st.run cs with
          | none => none
          | some (outs, st') => some (out :: outs, st')

/-- One answer of `stream.poll_next_unpin(cx)` in the infinite-interaction
model used for the drain-loop termination analysis. -/
inductive UpPoll (T : Type) where
  | item (x : T)
  | done
  | pend
  deriving DecidableEq, Repr

/-- Whether an upstream answer is `Poll::Ready(Some _)` (keeps the drain loop
looping). -/
def UpPoll.isItem {T : Type} : UpPoll T → Bool
  | .item _ => true
  | .done => false
  | .pend => false

/-- Fuel-indexed drain loop over an infinite upstream answer function `u`
(`u i` is the answer of the `i`-th poll of upstream in this call).  `none`
means the loop is still running after `fuel` iterations. -/
def Debounced.drainFuel {T : Type} (u : Nat → UpPoll T) :
    Nat → Nat → Debounced T → Option (DrainResult T)
  | 0, _, _ => none
  | fuel + 1, i, st =>
      match u i with
      | .item x => Debounced.drainFuel u fuel (i + 1) { st with pending := some (delayed x st.delay) }
      | .done => if st.pending.isNone then some (.returnEnd st) else some (.fallThrough st)
      | .pend => some (.fallThrough st)

/-- Fuel-indexed `poll_next` over an infinite upstream answer function: the
outer `Option` is termination of the call within `fuel` loop iterations, the
inner `Option` is the panic channel. -/
def Debounced.pollNextFuel {T : Type} (u : Nat → UpPoll T) (timerElapsed : Bool)
    (fuel : Nat) (st : Debounced T) :
    Option (Option (Poll (Option T) × Debounced T)) :=
  match Debounced.drainFuel u fuel 0 st with
  | none => none
  | some (.returnEnd st') => some (some (.ready none, st'))
  | some (.fallThrough st') => some (st'.resolvePending timerElapsed)

/-- Single-use driver of a `Delayed` future: poll while the timer reports
not-elapsed (`k` times), then poll once when the timer reports elapsed, and
stop (the resolved future is not polled again).  This encodes the single-use
contract of `Delayed` from the spec. -/
def Delayed.drive {T : Type} (d : Delayed T) : Nat → Option (Poll T × Delayed T)
  | 0 => d.poll true
  | k + 1 =>
      match d.poll false with
      | none => none
      | some (_, d') => d'.drive k

/-- Invariant: the pending `Delayed`, if any, was constructed with the
own `delay` duration of the debouncer. -/
def goodPending {T : Type} (st : Debounced T) : Prop :=
  ∀ p : Delayed T, st.pending = some p → p.duration = st.delay

/-! ## Basic lemmas about the embedded operations -/

theorem Delayed.poll_false {T : Type} (d : Delayed T) :
    d.poll false = some (.pending, d) := rfl

theorem Delayed.poll_true_of_value {T : Type} (d : Delayed T) (v : T) (h : d.value = some v) :
    d.poll true = some (.ready v, { d with value := none }) := by
  simp [Delayed.poll, h]

theorem Debounced.pending_eta {T : Type} (st : Debounced T) (p : Delayed T)
    (h : st.pending = some p) : ({ st with pending := some p } : Debounced T) = st := by
  rw [← h]

theorem Debounced.drainLoop_concat {T : Type} :
    ∀ (ys : List T) (x : T) (st : Debounced T) (final : UpFinal),
    st.drainLoop (ys ++ [x]) final
      = .fallThrough { st with pending := some (delayed x st.delay) }
  | [], x, st, final => by
      cases final <;> rfl
  | y :: ys, x, st, final => by
      show Debounced.drainLoop { st with pending := some (delayed y st.delay) } (ys ++ [x]) final = _
      rw [Debounced.drainLoop_concat ys x _ final]

theorem Debounced.resolvePending_of_none {T : Type} (st : Debounced T) (h : st.pending = none)
    (tr : Bool) : st.resolvePending tr = some (.pending, st) := by
  simp [Debounced.resolvePending, h]

theorem Debounced.resolvePending_some_false {T : Type} (st : Debounced T) (p : Delayed T)
    (h : st.pending = some p) : st.resolvePending false = some (.pending, st) := by
  have h1 : st.resolvePending false = some (.pending, { st with pending := some p }) := by
    simp [Debounced.resolvePending, h, Delayed.poll]
  rw [h1, Debounced.pending_eta st p h]

theorem Debounced.resolvePending_some_true {T : Type} (st : Debounced T) (p : Delayed T) (v : T)
    (hp : st.pending = some p) (hv : p.value = some v) :
    st.resolvePending true = some (.ready (some v), { st with pending := none }) := by
  simp [Debounced.resolvePending, hp, Delayed.poll, hv]

theorem Debounced.poll_next_concat {T : Type} (st : Debounced T) (ys : List T) (x : T)
    (final : UpFinal) (tr : Bool) :
    st.poll_next (ys ++ [x]) final tr =
      if tr then some (.ready (some x), { st with pending := none })
      else some (.pending, { st with pending := some (delayed x st.delay) }) := by
  simp only [Debounced.poll_next, Debounced.drainLoop_concat]
  cases tr
  · rw [Debounced.resolvePending_some_false _ (delayed x st.delay) rfl]
    rfl
  · rw [Debounced.resolvePending_some_true _ (delayed x st.delay) x rfl rfl]
    rfl

theorem Debounced.run_cons_some {T : Type} (st : Debounced T) (c : CallInput T)
    (cs : List (CallInput T)) (out : Poll (Option T)) (st1 : Debounced T)
    (outs : List (Poll (Option T))) (st2 : Debounced T)
    (h1 : st.poll_next c.burst c.final c.timerElapsed = some (out, st1))
    (h2 : st1.run cs = some (outs, st2)) :
    st.run (c :: cs) = some (out :: outs, st2) := by
  simp [Debounced.run, h1, h2]

theorem Debounced.poll_next_nil_pend {T : Type} (st : Debounced T) (tr : Bool) :
    st.poll_next [] .pend tr = st.resolvePending tr := rfl

theorem Debounced.poll_next_nil_done_of_none {T : Type} (st : Debounced T) (tr : Bool)
    (h : st.pending = none) : st.poll_next [] .done tr = some (.ready none, st) := by
  simp [Debounced.poll_next, Debounced.drainLoop, h]

theorem Debounced.poll_next_nil_done_some_false {T : Type} (st : Debounced T) (p : Delayed T)
    (h : st.pending = some p) : st.poll_next [] .done false = some (.pending, st) := by
  simp only [Debounced.poll_next, Debounced.drainLoop, h, Option.isNone_some,
    Bool.false_eq_true, if_false]
  exact Debounced.resolvePending_some_false st p h

theorem Debounced.poll_next_nil_done_some_true {T : Type} (st : Debounced T) (p : Delayed T)
    (v : T) (hp : st.pending = some p) (hv : p.value = some v) :
    st.poll_next [] .done true = some (.ready (some v), { st with pending := none }) := by
  simp only [Debounced.poll_next, Debounced.drainLoop, hp, Option.isNone_some,
    Bool.false_eq_true, if_false]
  exact Debounced.resolvePending_some_true st p v hp hv

theorem Debounced.poll_next_nil_pend_some_false {T : Type} (st : Debounced T) (p : Delayed T)
    (h : st.pending = some p) : st.poll_next [] .pend false = some (.pending, st) := by
  rw [Debounced.poll_next_nil_pend]
  exact Debounced.resolvePending_some_false st p h

theorem Debounced.poll_next_nil_pend_some_true {T : Type} (st : Debounced T) (p : Delayed T)
    (v : T) (hp : st.pending = some p) (hv : p.value = some v) :
    st.poll_next [] .pend true = some (.ready (some v), { st with pending := none }) := by
  rw [Debounced.poll_next_nil_pend]
  exact Debounced.resolvePending_some_true st p v hp hv

theorem Debounced.run_burst_calls {T : Type} :
    ∀ (cs : List (List T)) (ys : List T) (x : T) (st : Debounced T),
    (∀ b ∈ cs, b ≠ []) →
    st.run ((cs ++ [ys ++ [x]]).map fun b => ⟨b, .pend, false⟩)
      = some ((cs ++ [ys ++ [x]]).map fun _ => Poll.pending,
              { st with pending := some (delayed x st.delay) })
  | [], ys, x, st, _ => by
      simp only [List.nil_append, List.map_cons, List.map_nil]
      refine Debounced.run_cons_some st _ [] _ _ [] _ ?_ rfl
      rw [Debounced.poll_next_concat]
      rfl
  | c :: cs, ys, x, st, hne => by
      obtain ⟨zs, z, rfl⟩ : ∃ zs z, c = zs ++ [z] := by
        rcases List.eq_nil_or_concat c with h | ⟨zs, z, h⟩
        · exact absurd h (hne c (by simp))
        · exact ⟨zs, z, by simpa [List.concat_eq_append] using h⟩
      have h1 : st.poll_next (zs ++ [z]) .pend false
          = some (.pending, { st with pending := some (delayed z st.delay) }) := by
        rw [Debounced.poll_next_concat]
        rfl
      have h2 := Debounced.run_burst_calls cs ys x
        { st with pending := some (delayed z st.delay) }
        (fun b hb => hne b (List.mem_cons_of_mem _ hb))
      simp only [List.cons_append, List.map_cons]
      exact Debounced.run_cons_some _ _ _ _ _ _ _ h1 h2

theorem Debounced.run_done_of_none {T : Type} :
    ∀ (trs : List Bool) (st : Debounced T), st.pending = none →
    st.run (trs.map fun tr => ⟨[], .done, tr⟩)
      = some (trs.map fun _ => Poll.ready none, st)
  | [], _, _ => rfl
  | tr :: trs, st, h => by
      simp only [List.map_cons]
      exact Debounced.run_cons_some st _ _ _ _ _ _
        (Debounced.poll_next_nil_done_of_none st tr h)
        (Debounced.run_done_of_none trs st h)

theorem Debounced.run_pend_of_none {T : Type} :
    ∀ (trs : List Bool) (st : Debounced T), st.pending = none →
    st.run (trs.map fun tr => ⟨[], .pend, tr⟩)
      = some (trs.map fun _ => Poll.pending, st)
  | [], _, _ => rfl
  | tr :: trs, st, h => by
      simp only [List.map_cons]
      refine Debounced.run_cons_some st _ _ _ _ _ _ ?_
        (Debounced.run_pend_of_none trs st h)
      rw [Debounced.poll_next_nil_pend]
      exact Debounced.resolvePending_of_none st h tr

theorem Debounced.run_replicate_done_false {T : Type} (st : Debounced T) (p : Delayed T)
    (hp : st.pending = some p) :
    ∀ (k : Nat) (rest : List (CallInput T)) (outs : List (Poll (Option T)))
      (st2 : Debounced T), st.run rest = some (outs, st2) →
    st.run (List.replicate k ⟨[], .done, false⟩ ++ rest)
      = some (List.replicate k Poll.pending ++ outs, st2)
  | 0, _, _, _, h => by simpa using h
  | k + 1, rest, outs, st2, h => by
      simp only [List.replicate_succ, List.cons_append]
      exact Debounced.run_cons_some st _ _ _ _ _ _
        (Debounced.poll_next_nil_done_some_false st p hp)
        (Debounced.run_replicate_done_false st p hp k rest outs st2 h)

/-! ## Claim theorems -/

/-- Claim C1. A burst of items arriving strictly faster than the window —
modelled as consecutive `poll_next` calls on each of which upstream delivers
at least one item immediately and the pending timer has not yet elapsed —
yields no item during the burst; the whole burst collapses into a single
pending `Delayed` holding exactly the *last* item of the burst, armed with the
window duration, and the first call on which the timer fires yields exactly
that last item. -/
theorem C1_burst_collapses_to_last {T : Type} (st : Debounced T) (cs : List (List T))
    (ys : List T) (x : T) (hne : ∀ b ∈ cs, b ≠ []) :
    st.run ((cs ++ [ys ++ [x]]).map fun b => ⟨b, .pend, false⟩)
      = some ((cs ++ [ys ++ [x]]).map fun _ => Poll.pending,
              { st with pending := some (delayed x st.delay) }) ∧
    Debounced.poll_next { st with pending := some (delayed x st.delay) } [] .pend true
      = some (.ready (some x), { st with pending := none }) :=
  ⟨Debounced.run_burst_calls cs ys x st hne,
    Debounced.poll_next_nil_pend_some_true _ (delayed x st.delay) x rfl rfl⟩

/-- Witness for C1 at a concrete burst `[1, 2]`, `[3, 4]` with window 2. -/
theorem C1_witness :
    (Debounced.run (T := Nat) { delay := 2, pending := none }
       (([[1, 2]] ++ [[3] ++ [4]]).map fun b => ⟨b, .pend, false⟩)
      = some ((([[1, 2]] : List (List Nat)) ++ [[3] ++ [4]]).map fun _ => Poll.pending,
              { delay := 2, pending := some (delayed 4 2) })) ∧
    Debounced.poll_next { delay := 2, pending := some (delayed 4 2) } [] .pend true
      = some (.ready (some 4), { delay := 2, pending := none }) :=
  C1_burst_collapses_to_last { delay := 2, pending := none } [[1, 2]] [3] 4 (by decide)

/-- Claim C5. `delayed (v, d)` wraps `v` with a timer of duration `d`; while the
timer reports not elapsed, polling suspends (never resolves); on the poll on
which the timer reports elapsed, it resolves to exactly `v`. -/
theorem C5_delayed_resolves_to_value {T : Type} (v : T) (dur : Nat) :
    delayed v dur = Delayed.new v dur ∧
    (delayed v dur).poll false = some (.pending, delayed v dur) ∧
    (delayed v dur).poll true = some (.ready v, { duration := dur, value := none }) :=
  ⟨rfl, rfl, rfl⟩

/-- Claim C8. Driving a freshly constructed `Delayed` in the single-use
discipline (any number of polls while the timer is pending, then the one poll
on which the timer reports elapsed, after which it is not polled again) never
reaches the `unwrap` panic: the stored value is still present at resolution
and is returned exactly once. -/
theorem C8_unwrap_unreachable_single_use {T : Type} (v : T) (dur k : Nat) :
    (delayed v dur).drive k = some (.ready v, { duration := dur, value := none }) := by
  induction k with
  | zero => rfl
  | succ k ih => exact ih

/-- Claim C10. Polling a `Delayed` whose timer has not elapsed returns pending
and leaves the state (in particular the stored value) unchanged, so a later
resolution still yields the original value. -/
theorem C10_pending_poll_frame {T : Type} (d : Delayed T) (v : T) (h : d.value = some v) :
    d.poll false = some (.pending, d) ∧
    d.poll true = some (.ready v, { d with value := none }) :=
  ⟨Delayed.poll_false d, Delayed.poll_true_of_value d v h⟩

/-- Witness for C10 at `delayed 7 3`. -/
theorem C10_witness :
    (delayed (7 : Nat) 3).poll false = some (.pending, delayed 7 3) ∧
    (delayed (7 : Nat) 3).poll true
      = some (.ready 7, { duration := 3, value := none }) :=
  C10_pending_poll_frame (delayed 7 3) 7 rfl

/-- Claim C2. When upstream reports completion: with nothing pending, `poll_next`
returns End (`Poll::Ready(None)`) at once with no yielded item and an unchanged
state; with a value pending, the pending slot is kept, every call before the
timer fires suspends, the call on which the timer fires yields the pending
value, and only the calls after that flush signal End. -/
theorem C2_completion_flushing {T : Type} (st : Debounced T) :
    (∀ tr : Bool, st.pending = none →
      st.poll_next [] .done tr = some (.ready none, st)) ∧
    (∀ (dur : Nat) (v : T) (k : Nat) (trs : List Bool),
      st.pending = some { duration := dur, value := some v } →
      st.run (List.replicate k ⟨[], .done, false⟩
              ++ ⟨[], .done, true⟩ :: trs.map fun tr => ⟨[], .done, tr⟩)
        = some (List.replicate k Poll.pending
                ++ Poll.ready (some v) :: trs.map fun _ => Poll.ready none,
                { st with pending := none })) := by
  constructor
  · intro tr h
    exact Debounced.poll_next_nil_done_of_none st tr h
  · intro dur v k trs hp
    have hflush : st.poll_next [] .done true
        = some (.ready (some v), { st with pending := none }) :=
      Debounced.poll_next_nil_done_some_true st _ v hp rfl
    have htail := Debounced.run_done_of_none trs
      ({ st with pending := none } : Debounced T) rfl
    have hcons := Debounced.run_cons_some st ⟨[], .done, true⟩ _ _ _ _ _ hflush htail
    exact Debounced.run_replicate_done_false st _ hp k _ _ _ hcons

/-- Witness for C2: empty-pending case at window 1; pending-`7` case with two
suspended calls, the flushing call, then two End calls. -/
theorem C2_witness :
    (Debounced.poll_next (T := Nat) { delay := 1, pending := none } [] .done true
      = some (.ready none, { delay := 1, pending := none })) ∧
    (Debounced.run (T := Nat) { delay := 1, pending := some { duration := 1, value := some 7 } }
       (List.replicate 2 ⟨[], .done, false⟩
        ++ ⟨[], .done, true⟩ :: ([true, false].map fun tr => ⟨[], .done, tr⟩))
      = some (List.replicate 2 Poll.pending
              ++ Poll.ready (some 7) :: ([true, false].map fun _ => Poll.ready none),
              { delay := 1, pending := none })) :=
  ⟨(C2_completion_flushing { delay := 1, pending := none }).1 true rfl,
    (C2_completion_flushing { delay := 1, pending := some { duration := 1, value := some 7 } }).2
      1 7 2 [true, false] rfl⟩

/-- Claim C3. The `pending` slot is a single `Option` field, so at most one
pending `DelayedValue` ever exists; when upstream delivers new items while `p`
is pending, the drain loop overwrites the slot for each item, so `p` is
discarded: the output of the call is either suspension (new pending = the last new
item, armed with the window) or the last new item itself — the old pending
value is never yielded. -/
theorem C3_supersede_discards_pending {T : Type} (st : Debounced T) (p : Delayed T)
    (ys : List T) (x : T) (final : UpFinal) (tr : Bool) (_hp : st.pending = some p) :
    st.poll_next (ys ++ [x]) final tr
      = if tr then some (.ready (some x), { st with pending := none })
        else some (.pending, { st with pending := some (delayed x st.delay) }) :=
  Debounced.poll_next_concat st ys x final tr

/-- Witness for C3: item `9` pending, items `[1, 2]` arrive before its window
elapses; the consumer never sees `9`, only `2`. -/
theorem C3_witness :
    Debounced.poll_next (T := Nat) { delay := 5, pending := some (delayed 9 5) }
        ([1] ++ [2]) .pend false
      = if false then some (.ready (some 2), { delay := 5, pending := none })
        else some (.pending, { delay := 5, pending := some (delayed 2 5) }) :=
  C3_supersede_discards_pending { delay := 5, pending := some (delayed 9 5) }
    (delayed 9 5) [1] 2 .pend false rfl

/-- Claim C4, counterexample. The claim quantifies over *every* later upstream
behaviour, but `Debounced` keeps no completion flag: after it has returned End
(upstream done, nothing pending), a later call on which upstream yields a
fresh item `42` (followed by the timer firing) makes it emit `42` again.  So
"never emits an item on any later request, for every possible later behaviour
of the upstream sequence" is false on the code. -/
theorem C4_counterexample :
    Debounced.run (T := Nat) { delay := 1, pending := none }
      [⟨[], .done, true⟩, ⟨[42], .pend, true⟩]
      = some ([Poll.ready none, Poll.ready (some 42)],
              { delay := 1, pending := none }) := rfl

/-- Claim C4, amended. Once `Debounced` has signalled End (upstream completed
with nothing pending), it never emits an item on any later request *as long as
upstream keeps reporting completion*: every later call returns End again and
leaves the state unchanged. -/
theorem C4_no_emission_while_upstream_stays_done {T : Type} (st : Debounced T)
    (trs : List Bool) (h : st.pending = none) :
    st.run (trs.map fun tr => ⟨[], .done, tr⟩)
      = some (trs.map fun _ => Poll.ready none, st) :=
  Debounced.run_done_of_none trs st h

/-- Witness for the amended C4 at three post-completion calls. -/
theorem C4_witness :
    Debounced.run (T := Nat) { delay := 1, pending := none }
        ([true, false, true].map fun tr => ⟨[], .done, tr⟩)
      = some (([true, false, true].map fun _ => Poll.ready none),
              { delay := 1, pending := none }) :=
  C4_no_emission_while_upstream_stays_done { delay := 1, pending := none }
    [true, false, true] rfl

/-- Claim C6. If upstream never yields and never completes (every upstream poll
answers not-ready) and nothing is pending, every `poll_next` call suspends:
`Debounced` never yields an item and never signals completion, and its state
is unchanged. -/
theorem C6_quiescent_upstream {T : Type} (st : Debounced T) (trs : List Bool)
    (h : st.pending = none) :
    st.run (trs.map fun tr => ⟨[], .pend, tr⟩)
      = some (trs.map fun _ => Poll.pending, st) :=
  Debounced.run_pend_of_none trs st h

/-- Witness for C6 at four quiescent calls. -/
theorem C6_witness :
    Debounced.run (T := Nat) { delay := 3, pending := none }
        ([false, true, false, true].map fun tr => ⟨[], .pend, tr⟩)
      = some (([false, true, false, true].map fun _ => Poll.pending),
              { delay := 3, pending := none }) :=
  C6_quiescent_upstream { delay := 3, pending := none } [false, true, false, true] rfl

theorem Debounced.drainFuel_succ_item {T : Type} (u : Nat → UpPoll T) (i fuel : Nat)
    (st : Debounced T) (x : T) (hu : u i = UpPoll.item x) :
    Debounced.drainFuel u (fuel + 1) i st
      = Debounced.drainFuel u fuel (i + 1)
          { st with pending := some (delayed x st.delay) } := by
  simp [Debounced.drainFuel, hu]

theorem Debounced.drainFuel_succ_stop {T : Type} (u : Nat → UpPoll T) (i fuel : Nat)
    (st : Debounced T) (hu : (u i).isItem = false) :
    (Debounced.drainFuel u (fuel + 1) i st).isSome = true := by
  cases h : u i with
  | item x => rw [h] at hu; simp [UpPoll.isItem] at hu
  | done =>
      simp only [Debounced.drainFuel, h]
      cases st.pending <;> simp
  | pend => simp [Debounced.drainFuel, h]

theorem Debounced.drainFuel_isSome_of_stop {T : Type} (u : Nat → UpPoll T) :
    ∀ (n i : Nat) (st : Debounced T), (u (i + n)).isItem = false →
    (Debounced.drainFuel u (n + 1) i st).isSome = true := by
  intro n
  induction n with
  | zero =>
      intro i st h
      simp only [Nat.add_zero] at h
      exact Debounced.drainFuel_succ_stop u i 0 st h
  | succ n ih =>
      intro i st h
      cases hu : u i with
      | item x =>
          rw [Debounced.drainFuel_succ_item u i (n + 1) st x hu]
          apply ih (i + 1)
          have harith : i + 1 + n = i + (n + 1) := by omega
          rw [harith]
          exact h
      | done => exact Debounced.drainFuel_succ_stop u i (n + 1) st (by simp [hu, UpPoll.isItem])
      | pend => exact Debounced.drainFuel_succ_stop u i (n + 1) st (by simp [hu, UpPoll.isItem])

theorem Debounced.drainFuel_none_of_allItems {T : Type} (u : Nat → UpPoll T)
    (hall : ∀ n, (u n).isItem = true) :
    ∀ (fuel i : Nat) (st : Debounced T), Debounced.drainFuel u fuel i st = none := by
  intro fuel
  induction fuel with
  | zero => intro i st; rfl
  | succ fuel ih =>
      intro i st
      have h := hall i
      cases hu : u i with
      | item x =>
          simp only [Debounced.drainFuel, hu]
          exact ih (i + 1) _
      | done => rw [hu] at h; simp [UpPoll.isItem] at h
      | pend => rw [hu] at h; simp [UpPoll.isItem] at h

theorem Debounced.pollNextFuel_isSome_iff_drain {T : Type} (u : Nat → UpPoll T) (tr : Bool)
    (fuel : Nat) (st : Debounced T) :
    (Debounced.pollNextFuel u tr fuel st).isSome
      = (Debounced.drainFuel u fuel 0 st).isSome := by
  rcases h : Debounced.drainFuel u fuel 0 st with _ | r
  · simp [Debounced.pollNextFuel, h]
  · cases r <;> simp [Debounced.pollNextFuel, h]

/-- Claim C7. A single `poll_next` call terminates (returns a result or
suspends) exactly when the drain loop exits, which requires some upstream poll
to answer something other than `Poll::Ready(Some _)`; an upstream that is
always immediately ready with an item keeps the loop running for any amount of
fuel, so the pending timer is never polled — it is starved indefinitely. -/
theorem C7_drain_loop_starvation {T : Type} (tr : Bool) (st : Debounced T) :
    (∀ u : Nat → UpPoll T,
      (∃ fuel, (Debounced.pollNextFuel u tr fuel st).isSome = true)
        ↔ (∃ n, (u n).isItem = false)) ∧
    (∀ (f : Nat → T) (fuel : Nat),
      Debounced.pollNextFuel (fun n => UpPoll.item (f n)) tr fuel st = none) := by
  have hnone : ∀ (u : Nat → UpPoll T), (∀ n, (u n).isItem = true) →
      ∀ fuel, Debounced.pollNextFuel u tr fuel st = none := by
    intro u hall fuel
    simp [Debounced.pollNextFuel, Debounced.drainFuel_none_of_allItems u hall]
  constructor
  · intro u
    constructor
    · rintro ⟨fuel, hf⟩
      by_contra hno
      push_neg at hno
      have hall : ∀ n, (u n).isItem = true := by
        intro n
        cases hb : (u n).isItem
        · exact absurd hb (hno n)
        · rfl
      rw [hnone u hall fuel] at hf
      simp at hf
    · rintro ⟨n, hn⟩
      refine ⟨n + 1, ?_⟩
      rw [Debounced.pollNextFuel_isSome_iff_drain]
      exact Debounced.drainFuel_isSome_of_stop u n 0 st (by simpa using hn)
  · intro f fuel
    exact hnone (fun n => UpPoll.item (f n)) (fun _ => rfl) fuel

theorem Debounced.drainLoop_preserves {T : Type} :
    ∀ (burst : List T) (st : Debounced T) (final : UpFinal), goodPending st →
    (∀ st1, st.drainLoop burst final = .returnEnd st1 →
        st1.delay = st.delay ∧ goodPending st1) ∧
    (∀ st1, st.drainLoop burst final = .fallThrough st1 →
        st1.delay = st.delay ∧ goodPending st1)
  | [], st, .pend, hg => by
      constructor
      · intro st1 h
        simp [Debounced.drainLoop] at h
      · intro st1 h
        simp only [Debounced.drainLoop, DrainResult.fallThrough.injEq] at h
        exact h ▸ ⟨rfl, hg⟩
  | [], st, .done, hg => by
      constructor
      · intro st1 h
        simp only [Debounced.drainLoop] at h
        split at h
        · cases h
          exact ⟨rfl, hg⟩
        · cases h
      · intro st1 h
        simp only [Debounced.drainLoop] at h
        split at h
        · cases h
        · cases h
          exact ⟨rfl, hg⟩
  | x :: rest, st, final, hg => by
      have hg2 : goodPending { st with pending := some (delayed x st.delay) } := by
        intro p hp
        cases hp
        rfl
      have ih := Debounced.drainLoop_preserves rest
        { st with pending := some (delayed x st.delay) } final hg2
      constructor
      · intro st1 h
        exact (ih.1 st1 h)
      · intro st1 h
        exact (ih.2 st1 h)

theorem Debounced.resolvePending_preserves {T : Type} (st : Debounced T) (tr : Bool)
    (out : Poll (Option T)) (st1 : Debounced T) (hg : goodPending st)
    (h : st.resolvePending tr = some (out, st1)) :
    st1.delay = st.delay ∧ goodPending st1 := by
  rcases hp : st.pending with _ | p
  · rw [Debounced.resolvePending_of_none st hp tr] at h
    cases h
    exact ⟨rfl, hg⟩
  · cases tr
    · rw [Debounced.resolvePending_some_false st p hp] at h
      cases h
      exact ⟨rfl, hg⟩
    · rcases hv : p.value with _ | v
      · simp [Debounced.resolvePending, hp, Delayed.poll, hv] at h
      · rw [Debounced.resolvePending_some_true st p v hp hv] at h
        cases h
        exact ⟨rfl, fun q hq => by cases hq⟩

/-- Claim C9. The window is fixed at construction and never modified: a fresh
`Debounced` stores exactly the given delay with nothing pending, and any
`poll_next` call (whatever upstream and the timer answer) leaves the `delay`
field unchanged and arms every pending `Delayed` it creates with exactly that
delay (invariant `goodPending`). -/
theorem C9_window_immutable {T : Type} (dc : Nat) (st : Debounced T) (burst : List T)
    (final : UpFinal) (tr : Bool) (out : Poll (Option T)) (st' : Debounced T)
    (hg : goodPending st) (h : st.poll_next burst final tr = some (out, st')) :
    (Debounced.new (T := T) dc).delay = dc ∧ goodPending (Debounced.new (T := T) dc) ∧
    st'.delay = st.delay ∧ goodPending st' := by
  refine ⟨rfl, ?_, ?_⟩
  · intro p hp
    cases hp
  show st'.delay = st.delay ∧ goodPending st'
  unfold Debounced.poll_next at h
  rcases hd : st.drainLoop burst final with st1 | st1
  · rw [hd] at h
    injection h with h2
    injection h2 with ho hs
    subst hs
    exact (Debounced.drainLoop_preserves burst st final hg).1 _ hd
  · rw [hd] at h
    have h1 := (Debounced.drainLoop_preserves burst st final hg).2 st1 hd
    have h2 := Debounced.resolvePending_preserves st1 tr out st' h1.2 h
    exact ⟨h2.1.trans h1.1, h2.2⟩

/-- Witness for C9: polling a window-3 debouncer with one incoming item arms a
pending value of duration 3 and leaves the window at 3. -/
theorem C9_witness :
    (Debounced.new (T := Nat) 2).delay = 2 ∧ goodPending (Debounced.new (T := Nat) 2) ∧
    ({ delay := 3, pending := some (delayed 5 3) } : Debounced Nat).delay
      = ({ delay := 3, pending := none } : Debounced Nat).delay ∧
    goodPending ({ delay := 3, pending := some (delayed 5 3) } : Debounced Nat) :=
  C9_window_immutable 2 { delay := 3, pending := none } [5] .pend false
    Poll.pending { delay := 3, pending := some (delayed 5 3) }
    (fun p hp => by cases hp) rfl

end DebouncedSpec
